import Mathlib

/-!
Verification development for the delivery-state-manager repository.

The Go sources are shallowly embedded: records become structures, the two
Go maps of the `StateManager` become association lists (list order standing
for the unspecified Go map iteration order), `time.Now().Unix()` becomes an
explicit `now : Int` argument, and every mutating operation returns the new
store paired with an optional error, mirroring the early-return error paths
of the Go code, which leave the maps untouched.
-/

namespace DSM

/-- `models.Location`. The Go fields are `float64`; no arithmetic is ever
performed on coordinates anywhere in the repository, so they are modelled
as integers. -/
structure Location where
  lat : Int
  lon : Int
  deriving DecidableEq

/-- `models.Driver`. `DriverStatus` is a string type in Go, so `status`
is a `String` here. -/
structure Driver where
  id : String
  name : String
  status : String
  location : Location
  updatedAt : Int
  deriving DecidableEq

/-- `models.Order`. `OrderStatus` is a string type in Go. -/
structure Order where
  id : String
  customer : String
  pickup : Location
  dropoff : Location
  status : String
  driverID : String
  createdAt : Int
  updatedAt : Int
  deriving DecidableEq

def DriverAvailable : String := "available"
def DriverBusy : String := "busy"
def DriverOffline : String := "offline"

def OrderPending : String := "pending"
def OrderAssigned : String := "assigned"
def OrderPickedUp : String := "picked_up"
def OrderDelivered : String := "delivered"
def OrderCanceled : String := "canceled"

/-- `models.IsValidDriverStatus`. -/
def IsValidDriverStatus (status : String) : Bool :=
  status == DriverAvailable || status == DriverBusy || status == DriverOffline

/-- `models.IsValidOrderStatus`. -/
def IsValidOrderStatus (status : String) : Bool :=
  status == OrderPending || status == OrderAssigned || status == OrderPickedUp ||
    status == OrderDelivered || status == OrderCanceled

/-- `models.CanTransitionOrderStatus`: the transition table of the Go map
`validTransitions`, with `false` for a key absent from the map. -/
def CanTransitionOrderStatus (fromStatus toStatus : String) : Bool :=
  if fromStatus == OrderPending then
    toStatus == OrderAssigned || toStatus == OrderCanceled
  else if fromStatus == OrderAssigned then
    toStatus == OrderPickedUp || toStatus == OrderCanceled
  else if fromStatus == OrderPickedUp then
    toStatus == OrderDelivered || toStatus == OrderCanceled
  else if fromStatus == OrderDelivered then
    false
  else if fromStatus == OrderCanceled then
    false
  else
    false

/-- The error values of `pkg/errs` plus `ErrMissingRequiredField`, which is
referenced by the use-case layer. -/
inductive Err where
  | invalidStatusUpdate
  | invalidTransition
  | driverNotAvailable
  | orderAlreadyAssigned
  | driverNotFound
  | orderNotFound
  | missingRequiredField
  deriving DecidableEq

/-- Lookup in a Go map modelled as an association list: the first entry
with the given key. -/
def mapLookup [DecidableEq κ] : List (κ × α) → κ → Option α
  | [], _ => none
  | (k2, v) :: rest, k => if k2 = k then some v else mapLookup rest k

/-- Insertion in a Go map modelled as an association list: replace the
first entry with the given key, or append a new entry. -/
def mapInsert [DecidableEq κ] : List (κ × α) → κ → α → List (κ × α)
  | [], k, v => [(k, v)]
  | (k2, v2) :: rest, k, v =>
    if k2 = k then (k, v) :: rest else (k2, v2) :: mapInsert rest k v

/-- `repository.StateManager`: the two maps guarded by the single lock.
Operations are sequentialized by the lock, so the embedding is a plain
state-passing model. -/
structure StateManager where
  drivers : List (String × Driver)
  orders : List (String × Order)
  deriving DecidableEq

def emptyStore : StateManager := { drivers := [], orders := [] }

/-- `StateManager.CreateOrUpdateDriver` (repository layer): stamps the
update time and stores the record under its ID. -/
def CreateOrUpdateDriver (sm : StateManager) (driver : Driver) (now : Int) :
    StateManager :=
  let driver := { driver with updatedAt := now }
  { sm with drivers := mapInsert sm.drivers driver.id driver }

/-- `StateManager.GetDriver`. -/
def GetDriver (sm : StateManager) (id : String) : Except Err Driver :=
  match mapLookup sm.drivers id with
  | none => .error .driverNotFound
  | some driver => .ok driver

/-- `StateManager.UpdateDriverStatus`. -/
def UpdateDriverStatus (sm : StateManager) (id status : String) (now : Int) :
    StateManager × Option Err :=
  if !IsValidDriverStatus status then (sm, some .invalidStatusUpdate)
  else
    match mapLookup sm.drivers id with
    | none => (sm, some .driverNotFound)
    | some driver =>
      ({ sm with drivers :=
          mapInsert sm.drivers id { driver with status := status, updatedAt := now } },
       none)

/-- `StateManager.CreateOrder` (repository layer): forces status to
pending, clears the driver reference, stamps both times, inserts. -/
def CreateOrder (sm : StateManager) (order : Order) (now : Int) : StateManager :=
  let order := { order with
    status := OrderPending, createdAt := now, updatedAt := now, driverID := "" }
  { sm with orders := mapInsert sm.orders order.id order }

/-- `StateManager.GetOrder`. -/
def GetOrder (sm : StateManager) (id : String) : Except Err Order :=
  match mapLookup sm.orders id with
  | none => .error .orderNotFound
  | some order => .ok order

/-- `StateManager.UpdateOrderStatus`. -/
def UpdateOrderStatus (sm : StateManager) (id status : String) (now : Int) :
    StateManager × Option Err :=
  if !IsValidOrderStatus status then (sm, some .invalidStatusUpdate)
  else
    match mapLookup sm.orders id with
    | none => (sm, some .orderNotFound)
    | some order =>
      if !CanTransitionOrderStatus order.status status then
        (sm, some .invalidTransition)
      else
        ({ sm with orders :=
            mapInsert sm.orders id { order with status := status, updatedAt := now } },
         none)

/-- `StateManager.GetPendingOrders`: the orders with pending status, in map
iteration order. -/
def GetPendingOrders (sm : StateManager) : List Order :=
  (sm.orders.map Prod.snd).filter (fun o => o.status == OrderPending)

/-- `StateManager.GetAvailableDrivers`. -/
def GetAvailableDrivers (sm : StateManager) : List Driver :=
  (sm.drivers.map Prod.snd).filter (fun d => d.status == DriverAvailable)

/-- `StateManager.AssignOrderToDriver`: the compound operation, one
critical section; the checks run in the order the Go code writes them. -/
def AssignOrderToDriver (sm : StateManager) (orderID driverID : String)
    (now : Int) : StateManager × Option Err :=
  match mapLookup sm.orders orderID with
  | none => (sm, some .orderNotFound)
  | some order =>
    match mapLookup sm.drivers driverID with
    | none => (sm, some .driverNotFound)
    | some driver =>
      if order.status != OrderPending then (sm, some .orderAlreadyAssigned)
      else if driver.status != DriverAvailable then (sm, some .driverNotAvailable)
      else
        ({ drivers := mapInsert sm.drivers driverID
             { driver with status := DriverBusy, updatedAt := now },
           orders := mapInsert sm.orders orderID
             { order with status := OrderAssigned, driverID := driverID,
                          updatedAt := now } },
         none)

/-- `models.StateSnapshot`. -/
structure StateSnapshot where
  drivers : List (String × Driver)
  orders : List (String × Order)
  timestamp : Int
  deriving DecidableEq

/-- `StateManager.GetSnapshot`: copies of both maps plus a capture
timestamp, taken in one read critical section. -/
def GetSnapshot (sm : StateManager) (now : Int) : StateSnapshot :=
  { drivers := sm.drivers, orders := sm.orders, timestamp := now }

/-- `usecase.DriverUseCase.CreateOrUpdateDriver`: validation and status
defaulting on top of the repository upsert. -/
def DriverUseCase.CreateOrUpdateDriver (sm : StateManager) (driver : Driver)
    (now : Int) : StateManager × Option Err :=
  if driver.id == "" || driver.name == "" then (sm, some .missingRequiredField)
  else if driver.status != "" && !IsValidDriverStatus driver.status then
    (sm, some .invalidStatusUpdate)
  else
    let driver :=
      if driver.status == "" then { driver with status := DriverAvailable }
      else driver
    (DSM.CreateOrUpdateDriver sm driver now, none)

/-- Modelled from the spec: the repository file defining
`usecase.OrderUseCase` is not among the provided sources (it is referenced
by `main.go` and `handlers.go`). Per the spec, CreateOrder fails with
MissingField if ID or customer is empty and otherwise delegates to the
store CreateOrder, mirroring the validation shape of the driver use case. -/
def OrderUseCase.CreateOrder (sm : StateManager) (order : Order) (now : Int) :
    StateManager × Option Err :=
  if order.id == "" || order.customer == "" then (sm, some .missingRequiredField)
  else (DSM.CreateOrder sm order now, none)

/-- The body of the matching loop of `service.Matcher.MatchOrders`: for the
i-th pending order take the i-th available driver, breaking when the index
reaches the length of the driver list; a failed assignment is skipped. -/
def matchLoop (now : Int) (availableDrivers : List Driver) :
    List Order → Nat → StateManager → StateManager × Nat
  | [], _, sm => (sm, 0)
  | order :: rest, i, sm =>
    if h : availableDrivers.length ≤ i then (sm, 0)
    else
      let driver := availableDrivers.get ⟨i, Nat.lt_of_not_le h⟩
      match AssignOrderToDriver sm order.id driver.id now with
      | (sm2, some _) => matchLoop now availableDrivers rest (i + 1) sm2
      | (sm2, none) =>
        let r := matchLoop now availableDrivers rest (i + 1) sm2
        (r.1, r.2 + 1)

/-- `service.Matcher.MatchOrders`: one tick of the matching engine. Returns
the new store and the `matched` counter. -/
def MatchOrders (sm : StateManager) (now : Int) : StateManager × Nat :=
  let pendingOrders := GetPendingOrders sm
  let availableDrivers := GetAvailableDrivers sm
  if pendingOrders.length = 0 then (sm, 0)
  else if availableDrivers.length = 0 then (sm, 0)
  else matchLoop now availableDrivers pendingOrders 0 sm

/-- Written after the words of the spec, for comparison with `MatchOrders`:
pair the i-th pending order with the i-th available driver for i up to the
size of the smaller list (the zip), invoke the atomic assignment for each
pair, and on failure skip the pair and continue with the next one. -/
def MatchPairsSpec (now : Int) : StateManager → List (Order × Driver) →
    StateManager × Nat
  | sm, [] => (sm, 0)
  | sm, (o, d) :: rest =>
    match AssignOrderToDriver sm o.id d.id now with
    | (sm2, some _) => MatchPairsSpec now sm2 rest
    | (sm2, none) =>
      let r := MatchPairsSpec now sm2 rest
      (r.1, r.2 + 1)

/-- The mutating Store operations of the spec, for reachability statements.
Upsert-driver and create-order are the validated operations of the spec
(use-case layer on top of the repository); the other three are the
repository operations unchanged. -/
inductive Op where
  | upsertDriver (driver : Driver) (now : Int)
  | setDriverStatus (id status : String) (now : Int)
  | createOrder (order : Order) (now : Int)
  | setOrderStatus (id status : String) (now : Int)
  | assignOrder (orderID driverID : String) (now : Int)
  deriving DecidableEq

def applyOp (sm : StateManager) : Op → StateManager
  | .upsertDriver d now => (DriverUseCase.CreateOrUpdateDriver sm d now).1
  | .setDriverStatus id st now => (UpdateDriverStatus sm id st now).1
  | .createOrder o now => (OrderUseCase.CreateOrder sm o now).1
  | .setOrderStatus id st now => (UpdateOrderStatus sm id st now).1
  | .assignOrder oid did now => (AssignOrderToDriver sm oid did now).1

/-- A state reached by a sequence of Store operations from the empty store. -/
def runOps (ops : List Op) : StateManager := ops.foldl applyOp emptyStore

/-- True when no entry further down the list reuses the key. -/
def NoDupKeys [DecidableEq κ] : List (κ × α) → Bool
  | [] => true
  | (k, _) :: rest => !(mapLookup rest k).isSome && NoDupKeys rest

/-- True when every entry is stored under the key the store uses for it. -/
def KeyedBy (f : α → String) (m : List (String × α)) : Bool :=
  m.all fun p => f p.2 == p.1

/-- Well-formedness of a store: unique keys, records keyed by their IDs.
Every state reachable from the empty store satisfies this. -/
def WFb (sm : StateManager) : Bool :=
  NoDupKeys sm.drivers && NoDupKeys sm.orders &&
    KeyedBy Driver.id sm.drivers && KeyedBy Order.id sm.orders

/-! ## Heap model of the copy discipline

The value-level model above erases Go pointer aliasing. To settle the
defensive-copy claim, the store is modelled once more at the level of the
Go heap: records live in addressed cells, the two store maps hold
addresses (`*models.Driver`, `*models.Order`), and each read copies the
record it returns into a freshly allocated cell (`driverCopy := *driver;
return &driverCopy`). `Driver` and `Order` contain no pointer fields in Go
(strings are immutable, `Location` is embedded by value), so the struct
assignment is a deep copy, which the model reflects by storing whole
records in heap cells. -/

abbrev Addr := Nat

/-- The Go heap and store: two typed cell banks, a bump allocator, and the
two pointer-valued maps of `StateManager`. -/
structure HeapState where
  driverHeap : List (Addr × Driver)
  orderHeap : List (Addr × Order)
  nextAddr : Addr
  driverPtrs : List (String × Addr)
  orderPtrs : List (String × Addr)
  deriving DecidableEq

/-- Allocate one fresh cell per value, in order; returns the addresses,
the new cell bank, and the new allocation bound. -/
def allocCells : List (Addr × α) → Addr → List α →
    List Addr × List (Addr × α) × Addr
  | heap, next, [] => ([], heap, next)
  | heap, next, v :: rest =>
    let r := allocCells (mapInsert heap next v) (next + 1) rest
    (next :: r.1, r.2.1, r.2.2)

/-- Dereference every pointer of a store map, in iteration order. Under
well-formedness every pointer is valid, so nothing is skipped. -/
def derefAll (heap : List (Addr × α)) (ptrs : List (String × Addr)) : List α :=
  ptrs.filterMap fun pr => mapLookup heap pr.2

/-- The read operations of the store, as named in the claim. -/
inductive ReadOp where
  | getDriver (id : String)
  | getAllDrivers
  | getAvailableDrivers
  | getOrder (id : String)
  | getAllOrders
  | getPendingOrders
  | snapshot

/-- Heap-level semantics of each read: look up the requested records and
return freshly allocated copies (driver addresses, order addresses, new
heap). The pointer maps are never touched by a read. -/
def applyRead (h : HeapState) : ReadOp → List Addr × List Addr × HeapState
  | .getDriver id =>
    match mapLookup h.driverPtrs id with
    | none => ([], [], h)
    | some p =>
      match mapLookup h.driverHeap p with
      | none => ([], [], h)
      | some d =>
        let r := allocCells h.driverHeap h.nextAddr [d]
        (r.1, [], { h with driverHeap := r.2.1, nextAddr := r.2.2 })
  | .getAllDrivers =>
    let r := allocCells h.driverHeap h.nextAddr (derefAll h.driverHeap h.driverPtrs)
    (r.1, [], { h with driverHeap := r.2.1, nextAddr := r.2.2 })
  | .getAvailableDrivers =>
    let r := allocCells h.driverHeap h.nextAddr
      ((derefAll h.driverHeap h.driverPtrs).filter fun d => d.status == DriverAvailable)
    (r.1, [], { h with driverHeap := r.2.1, nextAddr := r.2.2 })
  | .getOrder id =>
    match mapLookup h.orderPtrs id with
    | none => ([], [], h)
    | some p =>
      match mapLookup h.orderHeap p with
      | none => ([], [], h)
      | some o =>
        let r := allocCells h.orderHeap h.nextAddr [o]
        ([], r.1, { h with orderHeap := r.2.1, nextAddr := r.2.2 })
  | .getAllOrders =>
    let r := allocCells h.orderHeap h.nextAddr (derefAll h.orderHeap h.orderPtrs)
    ([], r.1, { h with orderHeap := r.2.1, nextAddr := r.2.2 })
  | .getPendingOrders =>
    let r := allocCells h.orderHeap h.nextAddr
      ((derefAll h.orderHeap h.orderPtrs).filter fun o => o.status == OrderPending)
    ([], r.1, { h with orderHeap := r.2.1, nextAddr := r.2.2 })
  | .snapshot =>
    let r := allocCells h.driverHeap h.nextAddr (derefAll h.driverHeap h.driverPtrs)
    let r2 := allocCells h.orderHeap r.2.2 (derefAll h.orderHeap h.orderPtrs)
    (r.1, r2.1,
     { h with driverHeap := r.2.1, orderHeap := r2.2.1, nextAddr := r2.2.2 })

/-- Heap-level mutating operations. The record-creating operations receive
the address of the caller-allocated record, exactly as the Go methods
receive `*models.Driver` / `*models.Order`. -/
inductive HOp where
  | upsertDriver (p : Addr) (now : Int)
  | setDriverStatus (id status : String) (now : Int)
  | createOrder (p : Addr) (now : Int)
  | setOrderStatus (id status : String) (now : Int)
  | assignOrder (orderID driverID : String) (now : Int)

/-- Heap-level semantics of each mutating operation: status updates and
assignment write through the store-held pointers in place; the upserts
write through the argument pointer and then store that pointer. -/
def applyHOp (h : HeapState) : HOp → HeapState
  | .upsertDriver p now =>
    match mapLookup h.driverHeap p with
    | none => h
    | some d =>
      { h with driverHeap := mapInsert h.driverHeap p { d with updatedAt := now },
               driverPtrs := mapInsert h.driverPtrs d.id p }
  | .setDriverStatus id st now =>
    if !IsValidDriverStatus st then h
    else
      match mapLookup h.driverPtrs id with
      | none => h
      | some p =>
        match mapLookup h.driverHeap p with
        | none => h
        | some d =>
          { h with driverHeap :=
              mapInsert h.driverHeap p { d with status := st, updatedAt := now } }
  | .createOrder p now =>
    match mapLookup h.orderHeap p with
    | none => h
    | some o =>
      let o2 := { o with status := OrderPending, createdAt := now,
                         updatedAt := now, driverID := "" }
      { h with orderHeap := mapInsert h.orderHeap p o2,
               orderPtrs := mapInsert h.orderPtrs o2.id p }
  | .setOrderStatus id st now =>
    if !IsValidOrderStatus st then h
    else
      match mapLookup h.orderPtrs id with
      | none => h
      | some p =>
        match mapLookup h.orderHeap p with
        | none => h
        | some o =>
          if !CanTransitionOrderStatus o.status st then h
          else
            { h with orderHeap :=
                mapInsert h.orderHeap p { o with status := st, updatedAt := now } }
  | .assignOrder oid did now =>
    match mapLookup h.orderPtrs oid with
    | none => h
    | some po =>
      match mapLookup h.orderHeap po with
      | none => h
      | some o =>
        match mapLookup h.driverPtrs did with
        | none => h
        | some pd =>
          match mapLookup h.driverHeap pd with
          | none => h
          | some d =>
            if o.status != OrderPending then h
            else if d.status != DriverAvailable then h
            else
              { h with
                orderHeap := mapInsert h.orderHeap po
                  { o with status := OrderAssigned, driverID := did, updatedAt := now },
                driverHeap := mapInsert h.driverHeap pd
                  { d with status := DriverBusy, updatedAt := now } }

/-- Heap well-formedness: every store-held pointer is an allocated cell
below the allocation bound. -/
def HWFb (h : HeapState) : Bool :=
  (h.driverPtrs.all fun pr =>
    decide (pr.2 < h.nextAddr) && (mapLookup h.driverHeap pr.2).isSome) &&
  (h.orderPtrs.all fun pr =>
    decide (pr.2 < h.nextAddr) && (mapLookup h.orderHeap pr.2).isSome)

/-- The driver records the store itself sees, id by id, through its own
pointers. -/
def storeDriverView (h : HeapState) : List (String × Option Driver) :=
  h.driverPtrs.map fun pr => (pr.1, mapLookup h.driverHeap pr.2)

/-- The order records the store itself sees through its own pointers. -/
def storeOrderView (h : HeapState) : List (String × Option Order) :=
  h.orderPtrs.map fun pr => (pr.1, mapLookup h.orderHeap pr.2)

/-- Side condition for the frame theorem: the caller-allocated argument
record of an upsert is not one of the cells a read just returned (the Go
handlers always pass a record freshly decoded from the request body). -/
def HOpArgOK (das oas : List Addr) : HOp → Prop
  | .upsertDriver p _ => p ∉ das
  | .createOrder p _ => p ∉ oas
  | _ => True

/-! ## Lemmas about the map embedding -/

theorem mapLookup_insert_self [DecidableEq κ] (m : List (κ × α)) (k : κ) (v : α) :
    mapLookup (mapInsert m k v) k = some v := by
  induction m with
  | nil => simp [mapInsert, mapLookup]
  | cons p rest ih =>
    obtain ⟨k2, v2⟩ := p
    by_cases h : k2 = k
    · simp [mapInsert, h, mapLookup]
    · simp [mapInsert, h, mapLookup, ih]

theorem mapLookup_insert_ne [DecidableEq κ] (m : List (κ × α)) {k j : κ} (v : α)
    (h : j ≠ k) : mapLookup (mapInsert m k v) j = mapLookup m j := by
  have hkj : ¬k = j := fun hh => h hh.symm
  induction m with
  | nil => simp [mapInsert, mapLookup, hkj]
  | cons p rest ih =>
    obtain ⟨k2, v2⟩ := p
    by_cases h2 : k2 = k
    · subst h2
      simp [mapInsert, mapLookup, hkj]
    · simp [mapInsert, h2, mapLookup, ih]

theorem mapLookup_insert_cases [DecidableEq κ] {m : List (κ × α)} {k j : κ}
    {v w : α} (h : mapLookup (mapInsert m k v) j = some w) :
    (j = k ∧ w = v) ∨ (j ≠ k ∧ mapLookup m j = some w) := by
  by_cases hj : j = k
  · subst hj
    rw [mapLookup_insert_self] at h
    exact Or.inl ⟨rfl, (Option.some_inj.mp h).symm⟩
  · rw [mapLookup_insert_ne m v hj] at h
    exact Or.inr ⟨hj, h⟩

theorem exists_mapLookup_insert [DecidableEq κ] {m : List (κ × α)} {j : κ}
    (k : κ) (v : α) (h : ∃ x, mapLookup m j = some x) :
    ∃ x, mapLookup (mapInsert m k v) j = some x := by
  by_cases hj : j = k
  · subst hj; exact ⟨v, mapLookup_insert_self m j v⟩
  · obtain ⟨x, hx⟩ := h
    exact ⟨x, by rw [mapLookup_insert_ne m v hj]; exact hx⟩

theorem mapLookup_mem [DecidableEq κ] {m : List (κ × α)} {k : κ} {v : α}
    (h : mapLookup m k = some v) : (k, v) ∈ m := by
  induction m with
  | nil => simp [mapLookup] at h
  | cons p rest ih =>
    obtain ⟨k2, v2⟩ := p
    by_cases h2 : k2 = k
    · subst h2
      simp [mapLookup] at h
      simp [h]
    · simp [mapLookup, h2] at h
      exact List.mem_cons_of_mem _ (ih h)

theorem mem_mapLookup_of_noDup [DecidableEq κ] {m : List (κ × α)} {k : κ} {v : α}
    (hnd : NoDupKeys m = true) (h : (k, v) ∈ m) : mapLookup m k = some v := by
  induction m with
  | nil => simp at h
  | cons p rest ih =>
    obtain ⟨k2, v2⟩ := p
    simp only [NoDupKeys, Bool.and_eq_true, Bool.not_eq_true'] at hnd
    rcases List.mem_cons.mp h with h1 | h1
    · injection h1 with hk hv
      subst hk; subst hv
      simp [mapLookup]
    · by_cases h2 : k2 = k
      · subst h2
        rw [ih hnd.2 h1] at hnd
        simp at hnd
      · simpa [mapLookup, h2] using ih hnd.2 h1

theorem lookup_isSome_of_filter [DecidableEq κ] {m : List (κ × α)} {k : κ}
    {q : κ × α → Bool}
    (h : (mapLookup (m.filter q) k).isSome = true) :
    (mapLookup m k).isSome = true := by
  induction m with
  | nil => simpa using h
  | cons p rest ih =>
    obtain ⟨k2, v2⟩ := p
    by_cases hq : q (k2, v2)
    · rw [List.filter_cons_of_pos hq] at h
      by_cases h2 : k2 = k
      · simp [mapLookup, h2]
      · simp only [mapLookup, h2, if_false] at h ⊢
        exact ih h
    · rw [List.filter_cons_of_neg (by simpa using hq)] at h
      by_cases h2 : k2 = k
      · simp [mapLookup, h2]
      · simp only [mapLookup, h2, if_false]
        exact ih h

theorem noDupKeys_filter [DecidableEq κ] {m : List (κ × α)} {q : κ × α → Bool}
    (h : NoDupKeys m = true) : NoDupKeys (m.filter q) = true := by
  induction m with
  | nil => simp [List.filter, NoDupKeys]
  | cons p rest ih =>
    obtain ⟨k2, v2⟩ := p
    simp only [NoDupKeys, Bool.and_eq_true, Bool.not_eq_true] at h
    by_cases hq : q (k2, v2)
    · rw [List.filter_cons_of_pos hq]
      simp only [NoDupKeys, Bool.and_eq_true, Bool.not_eq_true]
      refine ⟨?_, ih h.2⟩
      cases hs : (mapLookup (rest.filter q) k2).isSome
      · rfl
      · rw [lookup_isSome_of_filter hs] at h
        exact absurd h.1 (by simp)
    · rw [List.filter_cons_of_neg (by simpa using hq)]
      exact ih h.2

/-! ## Lemmas about statuses and transitions -/

theorem isValidOrderStatus_iff (s : String) :
    IsValidOrderStatus s = true ↔
      s = "pending" ∨ s = "assigned" ∨ s = "picked_up" ∨ s = "delivered" ∨
        s = "canceled" := by
  simp only [IsValidOrderStatus, OrderPending, OrderAssigned, OrderPickedUp,
    OrderDelivered, OrderCanceled, Bool.or_eq_true, beq_iff_eq]
  tauto

theorem isValidDriverStatus_iff (s : String) :
    IsValidDriverStatus s = true ↔
      s = "available" ∨ s = "busy" ∨ s = "offline" := by
  simp only [IsValidDriverStatus, DriverAvailable, DriverBusy, DriverOffline,
    Bool.or_eq_true, beq_iff_eq]
  tauto

theorem canTransition_true_cases {f t : String}
    (h : CanTransitionOrderStatus f t = true) :
    (f = "pending" ∧ (t = "assigned" ∨ t = "canceled")) ∨
    (f = "assigned" ∧ (t = "picked_up" ∨ t = "canceled")) ∨
    (f = "picked_up" ∧ (t = "delivered" ∨ t = "canceled")) := by
  simp only [CanTransitionOrderStatus, OrderPending, OrderAssigned, OrderPickedUp,
    OrderDelivered, OrderCanceled, beq_iff_eq] at h
  split_ifs at h with h1 h2 h3 h4 h5
  · exact Or.inl ⟨h1, by simpa using h⟩
  · exact Or.inr (Or.inl ⟨h2, by simpa using h⟩)
  · exact Or.inr (Or.inr ⟨h3, by simpa using h⟩)

/-! ## Lemmas about the assignment operation -/

/-- The store produced by a successful assignment. -/
def assignedStore (sm : StateManager) (orderID driverID : String) (now : Int)
    (o : Order) (d : Driver) : StateManager :=
  { drivers := mapInsert sm.drivers driverID
      { d with status := DriverBusy, updatedAt := now },
    orders := mapInsert sm.orders orderID
      { o with status := OrderAssigned, driverID := driverID, updatedAt := now } }

theorem assign_ok {sm : StateManager} {orderID driverID : String} {now : Int}
    {o : Order} {d : Driver}
    (ho : mapLookup sm.orders orderID = some o)
    (hd : mapLookup sm.drivers driverID = some d)
    (hos : o.status = OrderPending) (hds : d.status = DriverAvailable) :
    AssignOrderToDriver sm orderID driverID now =
      (assignedStore sm orderID driverID now o d, none) := by
  simp [AssignOrderToDriver, ho, hd, hos, hds, assignedStore]

theorem assign_ok_inv {sm sm2 : StateManager} {orderID driverID : String}
    {now : Int}
    (h : AssignOrderToDriver sm orderID driverID now = (sm2, none)) :
    ∃ o d, mapLookup sm.orders orderID = some o ∧
      mapLookup sm.drivers driverID = some d ∧
      o.status = OrderPending ∧ d.status = DriverAvailable ∧
      sm2 = assignedStore sm orderID driverID now o d := by
  unfold AssignOrderToDriver at h
  cases ho : mapLookup sm.orders orderID with
  | none => rw [ho] at h; simp at h
  | some o =>
    rw [ho] at h
    cases hd : mapLookup sm.drivers driverID with
    | none => rw [hd] at h; simp at h
    | some d =>
      rw [hd] at h
      by_cases hos : o.status = OrderPending
      · by_cases hds : d.status = DriverAvailable
        · refine ⟨o, d, rfl, rfl, hos, hds, ?_⟩
          simp [hos, hds, assignedStore] at h ⊢
          exact h.symm
        · simp [hos, hds] at h
      · simp [hos] at h

/-! ## C1 -/

/-- C1: `AssignOrderToDriver` fails with the not-found errors when either
ID is unknown, with order-already-assigned when the order is not pending,
with driver-unavailable when the driver is not available; on success it
updates both records in one step (assigned status, driver reference and
stamp on the order; busy status and stamp on the driver); every failure
returns the store unchanged. -/
theorem c1_assign_contract (sm : StateManager) (orderID driverID : String)
    (now : Int) :
    (mapLookup sm.orders orderID = none →
      AssignOrderToDriver sm orderID driverID now = (sm, some .orderNotFound)) ∧
    (∀ o, mapLookup sm.orders orderID = some o →
      mapLookup sm.drivers driverID = none →
      AssignOrderToDriver sm orderID driverID now = (sm, some .driverNotFound)) ∧
    (∀ o d, mapLookup sm.orders orderID = some o →
      mapLookup sm.drivers driverID = some d → o.status ≠ OrderPending →
      AssignOrderToDriver sm orderID driverID now =
        (sm, some .orderAlreadyAssigned)) ∧
    (∀ o d, mapLookup sm.orders orderID = some o →
      mapLookup sm.drivers driverID = some d → o.status = OrderPending →
      d.status ≠ DriverAvailable →
      AssignOrderToDriver sm orderID driverID now =
        (sm, some .driverNotAvailable)) ∧
    (∀ o d, mapLookup sm.orders orderID = some o →
      mapLookup sm.drivers driverID = some d → o.status = OrderPending →
      d.status = DriverAvailable →
      AssignOrderToDriver sm orderID driverID now =
        (assignedStore sm orderID driverID now o d, none)) := by
  refine ⟨?_, ?_, ?_, ?_, ?_⟩
  · intro h; simp [AssignOrderToDriver, h]
  · intro o ho hd; simp [AssignOrderToDriver, ho, hd]
  · intro o d ho hd hos; simp [AssignOrderToDriver, ho, hd, hos]
  · intro o d ho hd hos hds; simp [AssignOrderToDriver, ho, hd, hos, hds]
  · intro o d ho hd hos hds; exact assign_ok ho hd hos hds

def c1Order : Order :=
  { id := "o1", customer := "alice", pickup := ⟨1, 2⟩, dropoff := ⟨3, 4⟩,
    status := "pending", driverID := "", createdAt := 0, updatedAt := 0 }

def c1Driver : Driver :=
  { id := "d1", name := "bob", status := "available", location := ⟨5, 6⟩,
    updatedAt := 0 }

def c1Store : StateManager :=
  { drivers := [("d1", c1Driver)], orders := [("o1", c1Order)] }

/-- Witness for C1 at a concrete store: successful assignment of a pending
order to an available driver. -/
theorem c1_assign_contract_witness :
    AssignOrderToDriver c1Store "o1" "d1" 7 =
      (assignedStore c1Store "o1" "d1" 7 c1Order c1Driver, none) :=
  (c1_assign_contract c1Store "o1" "d1" 7).2.2.2.2 c1Order c1Driver
    (by decide) (by decide) (by decide) (by decide)

/-! ## C10 -/

/-- C10: the failure checks of `AssignOrderToDriver` run in the fixed
source order. When the order ID is unknown the result is the
order-not-found error no matter whether the driver ID is known; when the
order exists (in any status) and the driver ID is unknown the result is
the driver-not-found error, never order-already-assigned. -/
theorem c10_assign_check_order (sm : StateManager) (orderID driverID : String)
    (now : Int) :
    (mapLookup sm.orders orderID = none →
      AssignOrderToDriver sm orderID driverID now = (sm, some .orderNotFound)) ∧
    (∀ o, mapLookup sm.orders orderID = some o →
      mapLookup sm.drivers driverID = none →
      AssignOrderToDriver sm orderID driverID now =
        (sm, some .driverNotFound)) := by
  constructor
  · intro h; simp [AssignOrderToDriver, h]
  · intro o ho hd; simp [AssignOrderToDriver, ho, hd]

/-- Witness for C10: both IDs unknown gives the order error; unknown
driver with a non-pending order gives the driver error. -/
theorem c10_assign_check_order_witness :
    AssignOrderToDriver emptyStore "o9" "d9" 1 =
      (emptyStore, some .orderNotFound) ∧
    AssignOrderToDriver
        { drivers := [],
          orders := [("o1", { c1Order with status := "assigned" })] }
        "o1" "d9" 1 =
      ({ drivers := [],
         orders := [("o1", { c1Order with status := "assigned" })] },
       some .driverNotFound) :=
  ⟨(c10_assign_check_order emptyStore "o9" "d9" 1).1 (by decide),
   (c10_assign_check_order
      { drivers := [],
        orders := [("o1", { c1Order with status := "assigned" })] }
      "o1" "d9" 1).2 { c1Order with status := "assigned" } (by decide)
     (by decide)⟩

/-! ## C2 -/

/-- The six edges of the order transition graph, as enumerated by the
spec. -/
def orderEdges : List (String × String) :=
  [("pending", "assigned"), ("pending", "canceled"),
   ("assigned", "picked_up"), ("assigned", "canceled"),
   ("picked_up", "delivered"), ("picked_up", "canceled")]

/-- C2: for a stored order and a requested status, both among the five
recognized order statuses, `UpdateOrderStatus` succeeds exactly on the six
edges of the transition graph, updating status and timestamp; on every
other pair (same-state requests and terminal states included) it fails
with the illegal-transition error and returns the store unchanged. -/
theorem c2_order_transitions (sm : StateManager) (id toStatus : String)
    (now : Int) (o : Order)
    (h1 : mapLookup sm.orders id = some o)
    (h2 : IsValidOrderStatus o.status = true)
    (h3 : IsValidOrderStatus toStatus = true) :
    ((o.status, toStatus) ∈ orderEdges →
      UpdateOrderStatus sm id toStatus now =
        ({ sm with orders := mapInsert sm.orders id (
             { o with status := toStatus, updatedAt := now }) }, none)) ∧
    ((o.status, toStatus) ∉ orderEdges →
      UpdateOrderStatus sm id toStatus now = (sm, some .invalidTransition)) := by
  have hf := (isValidOrderStatus_iff o.status).mp h2
  have ht := (isValidOrderStatus_iff toStatus).mp h3
  constructor
  · intro hmem
    have hc : CanTransitionOrderStatus o.status toStatus = true := by
      rcases hf with hf | hf | hf | hf | hf <;>
        rcases ht with ht | ht | ht | ht | ht <;>
          rw [hf, ht] at hmem ⊢ <;> revert hmem <;> decide
    simp [UpdateOrderStatus, h3, h1, hc]
  · intro hmem
    have hc : CanTransitionOrderStatus o.status toStatus = false := by
      rcases hf with hf | hf | hf | hf | hf <;>
        rcases ht with ht | ht | ht | ht | ht <;>
          rw [hf, ht] at hmem ⊢ <;> revert hmem <;> decide
    simp [UpdateOrderStatus, h3, h1, hc]

/-- Witness for C2 at a concrete store: the edge pending-to-assigned
succeeds and the same-state pair pending-to-pending is rejected. -/
theorem c2_order_transitions_witness :
    UpdateOrderStatus c1Store "o1" "assigned" 9 =
      ({ c1Store with orders := mapInsert c1Store.orders "o1" (
           { c1Order with status := "assigned", updatedAt := 9 }) }, none) ∧
    UpdateOrderStatus c1Store "o1" "pending" 9 =
      (c1Store, some .invalidTransition) :=
  ⟨(c2_order_transitions c1Store "o1" "assigned" 9 c1Order (by decide)
      (by decide) (by decide)).1 (by decide),
   (c2_order_transitions c1Store "o1" "pending" 9 c1Order (by decide)
      (by decide) (by decide)).2 (by decide)⟩

/-! ## C7 -/

/-- C7: order creation fails with the missing-field error when the ID or
the customer is empty; otherwise the record is stored under its ID with
status forced to pending, the driver reference cleared, both timestamps
stamped, overwriting any existing order with that ID and leaving every
other key untouched. The missing-field validation lives in the order
use case, which is modelled from the spec (see `OrderUseCase.CreateOrder`). -/
theorem c7_create_order (sm : StateManager) (o : Order) (now : Int) :
    (o.id = "" ∨ o.customer = "" →
      OrderUseCase.CreateOrder sm o now = (sm, some .missingRequiredField)) ∧
    (o.id ≠ "" → o.customer ≠ "" →
      OrderUseCase.CreateOrder sm o now =
        ({ sm with orders := mapInsert sm.orders o.id (
             { o with status := OrderPending, driverID := "",
                      createdAt := now, updatedAt := now }) }, none) ∧
      mapLookup (OrderUseCase.CreateOrder sm o now).1.orders o.id =
        some { o with status := OrderPending, driverID := "",
                      createdAt := now, updatedAt := now } ∧
      (∀ k, k ≠ o.id →
        mapLookup (OrderUseCase.CreateOrder sm o now).1.orders k =
          mapLookup sm.orders k)) := by
  constructor
  · intro h
    rcases h with h | h <;> simp [OrderUseCase.CreateOrder, h]
  · intro h1 h2
    have heq : OrderUseCase.CreateOrder sm o now =
        ({ sm with orders := mapInsert sm.orders o.id (
             { o with status := OrderPending, driverID := "",
                      createdAt := now, updatedAt := now }) }, none) := by
      simp [OrderUseCase.CreateOrder, CreateOrder, h1, h2]
    refine ⟨heq, ?_, ?_⟩
    · rw [heq]
      exact mapLookup_insert_self ..
    · intro k hk
      rw [heq]
      exact mapLookup_insert_ne _ _ hk

/-- Witness for C7: a record with an empty customer is rejected; a valid
record is stored pending with its driver reference cleared, overwriting
the pre-existing order with the same ID. -/
theorem c7_create_order_witness :
    OrderUseCase.CreateOrder c1Store { c1Order with customer := "" } 3 =
      (c1Store, some .missingRequiredField) ∧
    OrderUseCase.CreateOrder c1Store
        { c1Order with status := "delivered", driverID := "d1" } 3 =
      ({ c1Store with orders := mapInsert c1Store.orders "o1" (
           { c1Order with status := "pending", driverID := "",
                          createdAt := 3, updatedAt := 3 }) }, none) :=
  ⟨(c7_create_order c1Store { c1Order with customer := "" } 3).1
     (Or.inr rfl),
   ((c7_create_order c1Store
       { c1Order with status := "delivered", driverID := "d1" } 3).2
     (by decide) (by decide)).1⟩

/-! ## C8 -/

/-- C8: the driver upsert fails with missing-field on an empty ID or name;
with a recognized status it stores the whole record (wholesale, update
time stamped); with an empty status it stores the record with the default
available status; with any other status string it fails with the
invalid-status error and changes nothing. `UpdateDriverStatus` stores
exactly a recognized requested status with a fresh stamp and rejects any
other string with the invalid-status error, changing nothing. -/
theorem c8_driver_status_ops (sm : StateManager) (d : Driver)
    (id st : String) (now : Int) :
    (d.id = "" ∨ d.name = "" →
      DriverUseCase.CreateOrUpdateDriver sm d now =
        (sm, some .missingRequiredField)) ∧
    (d.id ≠ "" → d.name ≠ "" →
      d.status = "available" ∨ d.status = "busy" ∨ d.status = "offline" →
      DriverUseCase.CreateOrUpdateDriver sm d now =
        ({ sm with drivers := mapInsert sm.drivers d.id (
             { d with updatedAt := now }) }, none)) ∧
    (d.id ≠ "" → d.name ≠ "" → d.status = "" →
      DriverUseCase.CreateOrUpdateDriver sm d now =
        ({ sm with drivers := mapInsert sm.drivers d.id (
             { d with status := DriverAvailable, updatedAt := now }) }, none)) ∧
    (d.id ≠ "" → d.name ≠ "" → d.status ≠ "" →
      ¬(d.status = "available" ∨ d.status = "busy" ∨ d.status = "offline") →
      DriverUseCase.CreateOrUpdateDriver sm d now =
        (sm, some .invalidStatusUpdate)) ∧
    (∀ drv, st = "available" ∨ st = "busy" ∨ st = "offline" →
      mapLookup sm.drivers id = some drv →
      UpdateDriverStatus sm id st now =
        ({ sm with drivers := mapInsert sm.drivers id (
             { drv with status := st, updatedAt := now }) }, none)) ∧
    (¬(st = "available" ∨ st = "busy" ∨ st = "offline") →
      UpdateDriverStatus sm id st now = (sm, some .invalidStatusUpdate)) := by
  refine ⟨?_, ?_, ?_, ?_, ?_, ?_⟩
  · intro h
    rcases h with h | h <;> simp [DriverUseCase.CreateOrUpdateDriver, h]
  · intro h1 h2 h3
    have hval : IsValidDriverStatus d.status = true :=
      (isValidDriverStatus_iff d.status).mpr h3
    have hne : d.status ≠ "" := by
      rcases h3 with h | h | h <;> simp [h]
    simp [DriverUseCase.CreateOrUpdateDriver, CreateOrUpdateDriver, h1, h2,
      hne, hval]
  · intro h1 h2 h3
    simp [DriverUseCase.CreateOrUpdateDriver, CreateOrUpdateDriver, h1, h2, h3]
  · intro h1 h2 h3 h4
    have hval : IsValidDriverStatus d.status = false := by
      cases hv : IsValidDriverStatus d.status
      · rfl
      · exact absurd ((isValidDriverStatus_iff d.status).mp hv) h4
    simp [DriverUseCase.CreateOrUpdateDriver, h1, h2, h3, hval]
  · intro drv h3 hl
    have hval : IsValidDriverStatus st = true :=
      (isValidDriverStatus_iff st).mpr h3
    simp [UpdateDriverStatus, hval, hl]
  · intro h4
    have hval : IsValidDriverStatus st = false := by
      cases hv : IsValidDriverStatus st
      · rfl
      · exact absurd ((isValidDriverStatus_iff st).mp hv) h4
    simp [UpdateDriverStatus, hval]

/-- Witness for C8: an upsert with the recognized busy status stores
exactly that status, and a status update with an unrecognized string fails
with the invalid-status error. -/
theorem c8_driver_status_ops_witness :
    DriverUseCase.CreateOrUpdateDriver c1Store
        { c1Driver with status := "busy" } 4 =
      ({ c1Store with drivers := mapInsert c1Store.drivers "d1" (
           { c1Driver with status := "busy", updatedAt := 4 }) }, none) ∧
    UpdateDriverStatus c1Store "d1" "flying" 4 =
      (c1Store, some .invalidStatusUpdate) :=
  ⟨(c8_driver_status_ops c1Store { c1Driver with status := "busy" } "d1"
      "busy" 4).2.1 (by decide) (by decide) (by decide),
   (c8_driver_status_ops c1Store c1Driver "d1" "flying" 4).2.2.2.2.2
     (by decide)⟩

/-! ## C4 -/

/-- C4 (amended): the only way the store itself links busy drivers to
orders is the assignment step. Immediately after a successful
`AssignOrderToDriver`, the driver put into busy is the assignee, via the
driver reference, of the just-assigned order, which is non-terminal. The
original invariant over all reachable states fails: a direct driver
status write can make a driver busy with no order at all (see the
counterexample). -/
theorem c4_busy_driver_after_assignment (sm sm2 : StateManager)
    (orderID driverID : String) (now : Int)
    (h : AssignOrderToDriver sm orderID driverID now = (sm2, none)) :
    ∃ o2 d2, mapLookup sm2.orders orderID = some o2 ∧
      o2.driverID = driverID ∧ o2.status = OrderAssigned ∧
      o2.status ≠ OrderDelivered ∧ o2.status ≠ OrderCanceled ∧
      mapLookup sm2.drivers driverID = some d2 ∧ d2.status = DriverBusy := by
  obtain ⟨o, d, ho, hd, hos, hds, hsm⟩ := assign_ok_inv h
  subst hsm
  refine ⟨_, _, mapLookup_insert_self .., rfl, rfl,
    (by show OrderAssigned ≠ OrderDelivered; decide),
    (by show OrderAssigned ≠ OrderCanceled; decide),
    mapLookup_insert_self .., rfl⟩

/-- Witness for C4 at a concrete successful assignment. -/
theorem c4_busy_driver_after_assignment_witness :
    ∃ o2 d2,
      mapLookup (AssignOrderToDriver c1Store "o1" "d1" 7).1.orders "o1" =
        some o2 ∧
      o2.driverID = "d1" ∧ o2.status = OrderAssigned ∧
      o2.status ≠ OrderDelivered ∧ o2.status ≠ OrderCanceled ∧
      mapLookup (AssignOrderToDriver c1Store "o1" "d1" 7).1.drivers "d1" =
        some d2 ∧ d2.status = DriverBusy :=
  c4_busy_driver_after_assignment c1Store
    (assignedStore c1Store "o1" "d1" 7 c1Order c1Driver) "o1" "d1" 7
    (by decide)

/-- Counterexample for C4 as stated: the state reached by upserting an
available driver and then writing its status to busy directly has a busy
driver and no orders at all, hence no non-terminal order assigned to it. -/
def c4Ops : List Op :=
  [.upsertDriver c1Driver 0, .setDriverStatus "d1" "busy" 1]

theorem c4_busy_driver_counterexample :
    (runOps c4Ops).orders = [] ∧
    mapLookup (runOps c4Ops).drivers "d1" =
      some { c1Driver with status := "busy", updatedAt := 1 } := by
  constructor <;> decide

/-! ## C6 -/

/-- C6 (amended): the two writes of a successful assignment are one atomic
step, so a snapshot taken at any point after it — with no intervening
driver status write — shows the order assigned to the driver and that
driver busy, never the half-applied pair; but the property does not hold
of all reachable states, because a later explicit driver status write can
make the driver available again while the order remains assigned (see the
counterexample). -/
theorem c6_snapshot_after_assignment (sm sm2 : StateManager)
    (orderID driverID : String) (now snapNow : Int)
    (h : AssignOrderToDriver sm orderID driverID now = (sm2, none)) :
    ∃ o2 d2,
      mapLookup (GetSnapshot sm2 snapNow).orders orderID = some o2 ∧
      o2.status = OrderAssigned ∧ o2.driverID = driverID ∧
      mapLookup (GetSnapshot sm2 snapNow).drivers driverID = some d2 ∧
      d2.status = DriverBusy ∧ d2.status ≠ DriverAvailable := by
  obtain ⟨o, d, ho, hd, hos, hds, hsm⟩ := assign_ok_inv h
  subst hsm
  exact ⟨_, _, mapLookup_insert_self .., rfl, rfl, mapLookup_insert_self ..,
    rfl, by show DriverBusy ≠ DriverAvailable; decide⟩

/-- Witness for C6 at a concrete successful assignment. -/
theorem c6_snapshot_after_assignment_witness :
    ∃ o2 d2,
      mapLookup (GetSnapshot (AssignOrderToDriver c1Store "o1" "d1" 7).1 8).orders
        "o1" = some o2 ∧
      o2.status = OrderAssigned ∧ o2.driverID = "d1" ∧
      mapLookup (GetSnapshot (AssignOrderToDriver c1Store "o1" "d1" 7).1 8).drivers
        "d1" = some d2 ∧
      d2.status = DriverBusy ∧ d2.status ≠ DriverAvailable :=
  c6_snapshot_after_assignment c1Store
    (assignedStore c1Store "o1" "d1" 7 c1Order c1Driver) "o1" "d1" 7 8
    (by decide)

/-- Counterexample for C6 as stated: after assignment followed by a direct
driver status write back to available, the snapshot of the reached state
shows the order assigned to driver d1 while d1 is available in the same
snapshot. -/
def c6Ops : List Op :=
  [.createOrder c1Order 0, .upsertDriver c1Driver 0,
   .assignOrder "o1" "d1" 1, .setDriverStatus "d1" "available" 2]

theorem c6_snapshot_counterexample :
    mapLookup (GetSnapshot (runOps c6Ops) 3).orders "o1" =
      some { c1Order with status := "assigned", driverID := "d1",
                          updatedAt := 1 } ∧
    mapLookup (GetSnapshot (runOps c6Ops) 3).drivers "d1" =
      some { c1Driver with status := "available", updatedAt := 2 } := by
  constructor <;> decide

/-! ## C3 -/

/-- The order statuses at or after assignment. -/
def AssignedLike (s : String) : Prop :=
  s = OrderAssigned ∨ s = OrderPickedUp ∨ s = OrderDelivered

/-- Every order at or after assignment carries a non-empty driver
reference naming a driver present in the store. -/
def DriverRefInv (sm : StateManager) : Prop :=
  ∀ k o, mapLookup sm.orders k = some o → AssignedLike o.status →
    o.driverID ≠ "" ∧ ∃ d, mapLookup sm.drivers o.driverID = some d

/-- No driver is stored under the empty key. -/
def DriverKeysNE (sm : StateManager) : Prop :=
  ∀ k d, mapLookup sm.drivers k = some d → k ≠ ""

/-- Guard on operation sequences: the direct order status write never
requests the assigned status; the spec reserves the pending-to-assigned
edge for the assignment operation. -/
def OpGuard : Op → Bool
  | .setOrderStatus _ st _ => st != OrderAssigned
  | _ => true

theorem driverKeysNE_insert {sm : StateManager} {k0 : String} {v : Driver}
    (hk0 : k0 ≠ "") (h1 : DriverKeysNE sm) :
    DriverKeysNE { sm with drivers := mapInsert sm.drivers k0 v } := by
  intro k x hk
  rcases mapLookup_insert_cases hk with ⟨hkk, _⟩ | ⟨_, hold⟩
  · exact hkk ▸ hk0
  · exact h1 k x hold

theorem driverRefInv_insertDriver {sm : StateManager} {k0 : String}
    {v : Driver} (h2 : DriverRefInv sm) :
    DriverRefInv { sm with drivers := mapInsert sm.drivers k0 v } := by
  intro k o hk ha
  obtain ⟨hne, hex⟩ := h2 k o hk ha
  exact ⟨hne, exists_mapLookup_insert k0 v hex⟩

theorem driverRefInv_insertPending {sm : StateManager} {k0 : String}
    {o0 : Order} (ho0 : o0.status = OrderPending) (h2 : DriverRefInv sm) :
    DriverRefInv { sm with orders := mapInsert sm.orders k0 o0 } := by
  intro k o hk ha
  rcases mapLookup_insert_cases hk with ⟨_, ho⟩ | ⟨_, hold⟩
  · subst ho
    rw [ho0] at ha
    rcases ha with h | h | h <;> exact absurd h (by decide)
  · exact h2 k o hold ha

theorem driverRefInv_setStatus {sm : StateManager} {k0 st : String}
    {now : Int} {o0 : Order}
    (hl : mapLookup sm.orders k0 = some o0)
    (hc : CanTransitionOrderStatus o0.status st = true)
    (hst : st ≠ OrderAssigned) (h2 : DriverRefInv sm) :
    DriverRefInv { sm with orders := mapInsert sm.orders k0 (
      { o0 with status := st, updatedAt := now }) } := by
  intro k o hk ha
  rcases mapLookup_insert_cases hk with ⟨_, ho⟩ | ⟨_, hold⟩
  · subst ho
    have hfrom : AssignedLike o0.status := by
      rcases ha with h | h | h
      · exact absurd h hst
      · have hpu : st = OrderPickedUp := h
        rw [hpu] at hc
        rcases canTransition_true_cases hc with ⟨_, hcase⟩ | ⟨hf, _⟩ |
          ⟨_, hcase⟩
        · rcases hcase with hbad | hbad <;> exact absurd hbad (by decide)
        · exact Or.inl hf
        · rcases hcase with hbad | hbad <;> exact absurd hbad (by decide)
      · have hdl : st = OrderDelivered := h
        rw [hdl] at hc
        rcases canTransition_true_cases hc with ⟨_, hcase⟩ | ⟨_, hcase⟩ |
          ⟨hf, _⟩
        · rcases hcase with hbad | hbad <;> exact absurd hbad (by decide)
        · rcases hcase with hbad | hbad <;> exact absurd hbad (by decide)
        · exact Or.inr (Or.inl hf)
    obtain ⟨hne, hex⟩ := h2 k0 o0 hl hfrom
    exact ⟨hne, hex⟩
  · exact h2 k o hold ha

theorem assign_err_state {sm sm2 : StateManager} {orderID driverID : String}
    {now : Int} {e : Err}
    (h : AssignOrderToDriver sm orderID driverID now = (sm2, some e)) :
    sm2 = sm := by
  unfold AssignOrderToDriver at h
  cases ho : mapLookup sm.orders orderID with
  | none =>
    rw [ho] at h
    injection h with h1 _
    exact h1.symm
  | some o =>
    rw [ho] at h
    cases hd : mapLookup sm.drivers driverID with
    | none =>
      rw [hd] at h
      injection h with h1 _
      exact h1.symm
    | some d =>
      rw [hd] at h
      by_cases hos : o.status = OrderPending
      · by_cases hds : d.status = DriverAvailable
        · simp [hos, hds] at h
        · simp [hos, hds] at h
          exact h.1.symm
      · simp [hos] at h
        exact h.1.symm

/-- One mutating operation preserves the two store invariants, provided a
direct order status write never requests the assigned status. -/
theorem inv_step (sm : StateManager) (op : Op) (hg : OpGuard op = true)
    (h1 : DriverKeysNE sm) (h2 : DriverRefInv sm) :
    DriverKeysNE (applyOp sm op) ∧ DriverRefInv (applyOp sm op) := by
  cases op with
  | upsertDriver d now =>
    simp only [applyOp, DriverUseCase.CreateOrUpdateDriver]
    by_cases hc1 : (d.id == "" || d.name == "") = true
    · simp only [hc1, if_true]
      exact ⟨h1, h2⟩
    · have hid : d.id ≠ "" := by
        simp only [Bool.or_eq_true, beq_iff_eq] at hc1
        exact fun hh => hc1 (Or.inl hh)
      simp only [hc1, if_false, Bool.false_eq_true]
      by_cases hc2 : (d.status != "" && !IsValidDriverStatus d.status) = true
      · simp only [hc2, if_true]
        exact ⟨h1, h2⟩
      · simp only [hc2, if_false, Bool.false_eq_true, CreateOrUpdateDriver]
        by_cases hc3 : (d.status == "") = true
        · simp only [hc3, if_true]
          exact ⟨driverKeysNE_insert hid h1, driverRefInv_insertDriver h2⟩
        · simp only [hc3, if_false, Bool.false_eq_true]
          exact ⟨driverKeysNE_insert hid h1, driverRefInv_insertDriver h2⟩
  | setDriverStatus id st now =>
    simp only [applyOp, UpdateDriverStatus]
    by_cases hv : (!IsValidDriverStatus st) = true
    · simp only [hv, if_true]
      exact ⟨h1, h2⟩
    · simp only [hv, if_false, Bool.false_eq_true]
      cases hl : mapLookup sm.drivers id with
      | none => exact ⟨h1, h2⟩
      | some drv =>
        have hid : id ≠ "" := h1 id drv hl
        exact ⟨driverKeysNE_insert hid h1, driverRefInv_insertDriver h2⟩
  | createOrder o now =>
    simp only [applyOp, OrderUseCase.CreateOrder]
    by_cases hc1 : (o.id == "" || o.customer == "") = true
    · simp only [hc1, if_true]
      exact ⟨h1, h2⟩
    · simp only [hc1, if_false, Bool.false_eq_true, CreateOrder]
      exact ⟨h1, driverRefInv_insertPending rfl h2⟩
  | setOrderStatus id st now =>
    have hst : st ≠ OrderAssigned := by
      simp only [OpGuard, bne_iff_ne, ne_eq] at hg
      exact hg
    simp only [applyOp, UpdateOrderStatus]
    by_cases hv : (!IsValidOrderStatus st) = true
    · simp only [hv, if_true]
      exact ⟨h1, h2⟩
    · simp only [hv, if_false, Bool.false_eq_true]
      cases hl : mapLookup sm.orders id with
      | none => exact ⟨h1, h2⟩
      | some o0 =>
        by_cases hc : (!CanTransitionOrderStatus o0.status st) = true
        · simp only [hc, if_true]
          exact ⟨h1, h2⟩
        · simp only [hc, if_false, Bool.false_eq_true]
          have hc2 : CanTransitionOrderStatus o0.status st = true := by
            simpa using hc
          exact ⟨h1, driverRefInv_setStatus hl hc2 hst h2⟩
  | assignOrder oid did now =>
    cases hres : AssignOrderToDriver sm oid did now with
    | mk sm2 err =>
      have happ : applyOp sm (.assignOrder oid did now) = sm2 := by
        simp [applyOp, hres]
      rw [happ]
      cases err with
      | some e =>
        rw [assign_err_state hres]
        exact ⟨h1, h2⟩
      | none =>
        obtain ⟨o, d, ho, hd, hos, hds, hsm⟩ := assign_ok_inv hres
        subst hsm
        have hdid : did ≠ "" := h1 did d hd
        constructor
        · intro k x hk
          rcases mapLookup_insert_cases hk with ⟨hkk, _⟩ | ⟨_, hold⟩
          · exact hkk ▸ hdid
          · exact h1 k x hold
        · intro k o2 hk ha
          rcases mapLookup_insert_cases hk with ⟨_, ho2⟩ | ⟨_, hold⟩
          · subst ho2
            refine ⟨hdid, ?_⟩
            exact ⟨_, mapLookup_insert_self ..⟩
          · obtain ⟨hne, hex⟩ := h2 k o2 hold ha
            exact ⟨hne, exists_mapLookup_insert did _ hex⟩

theorem runOps_inv_aux (ops : List Op) : ∀ (sm : StateManager),
    (∀ op ∈ ops, OpGuard op = true) → DriverKeysNE sm → DriverRefInv sm →
    DriverKeysNE (ops.foldl applyOp sm) ∧
      DriverRefInv (ops.foldl applyOp sm) := by
  induction ops with
  | nil => intro sm _ h1 h2; exact ⟨h1, h2⟩
  | cons op rest ih =>
    intro sm hg h1 h2
    have hstep := inv_step sm op (hg op (List.mem_cons_self ..)) h1 h2
    exact ih (applyOp sm op) (fun o ho => hg o (List.mem_cons_of_mem _ ho))
      hstep.1 hstep.2

/-- Single-step characterization of the driver reference: an operation
either keeps an order reference unchanged, resets it to empty (order
re-creation), or is the assignment operation setting it to the ID of a
driver present in the store. -/
theorem driverRef_step (sm : StateManager) (op : Op) (k : String)
    (o2 : Order) (hk : mapLookup (applyOp sm op).orders k = some o2) :
    (∃ o, mapLookup sm.orders k = some o ∧ o2.driverID = o.driverID) ∨
    o2.driverID = "" ∨
    (∃ oid did now, op = Op.assignOrder oid did now ∧ k = oid ∧
      o2.driverID = did ∧ ∃ d, mapLookup sm.drivers did = some d) := by
  cases op with
  | upsertDriver d now =>
    refine Or.inl ⟨o2, ?_, rfl⟩
    simp only [applyOp, DriverUseCase.CreateOrUpdateDriver] at hk
    by_cases hc1 : (d.id == "" || d.name == "") = true
    · simpa [hc1] using hk
    · by_cases hc2 : (d.status != "" && !IsValidDriverStatus d.status) = true
      · simpa [hc1, hc2] using hk
      · simpa [hc1, hc2, CreateOrUpdateDriver] using hk
  | setDriverStatus id st now =>
    refine Or.inl ⟨o2, ?_, rfl⟩
    simp only [applyOp, UpdateDriverStatus] at hk
    by_cases hv : (!IsValidDriverStatus st) = true
    · simpa [hv] using hk
    · cases hl : mapLookup sm.drivers id with
      | none => simpa [hv, hl] using hk
      | some drv => simpa [hv, hl] using hk
  | createOrder o now =>
    simp only [applyOp, OrderUseCase.CreateOrder] at hk
    by_cases hc1 : (o.id == "" || o.customer == "") = true
    · simp only [hc1, if_true] at hk
      exact Or.inl ⟨o2, hk, rfl⟩
    · simp only [hc1, if_false, Bool.false_eq_true, CreateOrder] at hk
      rcases mapLookup_insert_cases hk with ⟨_, ho2⟩ | ⟨_, hold⟩
      · subst ho2
        exact Or.inr (Or.inl rfl)
      · exact Or.inl ⟨o2, hold, rfl⟩
  | setOrderStatus id st now =>
    simp only [applyOp, UpdateOrderStatus] at hk
    by_cases hv : (!IsValidOrderStatus st) = true
    · simp only [hv, if_true] at hk
      exact Or.inl ⟨o2, hk, rfl⟩
    · simp only [hv, if_false, Bool.false_eq_true] at hk
      cases hl : mapLookup sm.orders id with
      | none =>
        rw [hl] at hk
        exact Or.inl ⟨o2, hk, rfl⟩
      | some o0 =>
        rw [hl] at hk
        by_cases hc : (!CanTransitionOrderStatus o0.status st) = true
        · simp only [hc, if_true] at hk
          exact Or.inl ⟨o2, hk, rfl⟩
        · simp only [hc, if_false, Bool.false_eq_true] at hk
          rcases mapLookup_insert_cases hk with ⟨hkk, ho2⟩ | ⟨_, hold⟩
          · subst ho2
            exact Or.inl ⟨o0, hkk ▸ hl, rfl⟩
          · exact Or.inl ⟨o2, hold, rfl⟩
  | assignOrder oid did now =>
    cases hres : AssignOrderToDriver sm oid did now with
    | mk sm2 err =>
      have happ : applyOp sm (.assignOrder oid did now) = sm2 := by
        simp [applyOp, hres]
      rw [happ] at hk
      cases err with
      | some e =>
        rw [assign_err_state hres] at hk
        exact Or.inl ⟨o2, hk, rfl⟩
      | none =>
        obtain ⟨o, d, ho, hd, hos, hds, hsm⟩ := assign_ok_inv hres
        subst hsm
        rcases mapLookup_insert_cases hk with ⟨hkk, ho2⟩ | ⟨_, hold⟩
        · subst ho2
          exact Or.inr (Or.inr ⟨oid, did, now, rfl, hkk, rfl, d, hd⟩)
        · exact Or.inl ⟨o2, hold, rfl⟩

/-- C3 (amended): provided the direct order status write is never used to
request the assigned status, every reachable order at or after assignment
has a non-empty driver reference naming a driver present in the store
(drivers are never deleted, so that driver existed when the reference was
set); and in any single step the reference is changed only by the
assignment operation, which sets it to an existing driver, or by an order
re-creation, which resets it to empty. The claim as stated fails: the
direct status write can produce an assigned order with an empty reference
(see the counterexample). -/
theorem c3_driver_reference (ops : List Op)
    (hg : ∀ op ∈ ops, OpGuard op = true) :
    DriverRefInv (runOps ops) ∧
    (∀ sm op k o2, mapLookup (applyOp sm op).orders k = some o2 →
      (∃ o, mapLookup sm.orders k = some o ∧ o2.driverID = o.driverID) ∨
      o2.driverID = "" ∨
      (∃ oid did now, op = Op.assignOrder oid did now ∧ k = oid ∧
        o2.driverID = did ∧ ∃ d, mapLookup sm.drivers did = some d)) := by
  refine ⟨(runOps_inv_aux ops emptyStore hg ?_ ?_).2,
    fun sm op k o2 hk => driverRef_step sm op k o2 hk⟩
  · intro k d h
    simp [emptyStore, mapLookup] at h
  · intro k o h
    simp [emptyStore, mapLookup] at h

def c3wOps : List Op :=
  [.createOrder c1Order 0, .upsertDriver c1Driver 0,
   .assignOrder "o1" "d1" 1]

/-- Witness for C3 at a concrete guarded run ending in an assignment. -/
theorem c3_driver_reference_witness :
    ({ c1Order with status := "assigned", driverID := "d1",
                    updatedAt := 1 } : Order).driverID ≠ "" ∧
    ∃ d, mapLookup (runOps c3wOps).drivers "d1" = some d :=
  (c3_driver_reference c3wOps (by decide)).1 "o1"
    { c1Order with status := "assigned", driverID := "d1", updatedAt := 1 }
    (by decide) (Or.inl rfl)

/-- Counterexample for C3 as stated: two Store operations produce an
order with the assigned status and an empty driver reference. -/
def c3Ops : List Op :=
  [.createOrder c1Order 0, .setOrderStatus "o1" "assigned" 1]

theorem c3_driver_reference_counterexample :
    mapLookup (runOps c3Ops).orders "o1" =
      some { c1Order with status := "assigned", updatedAt := 1 } ∧
    ({ c1Order with status := "assigned", updatedAt := 1 } : Order).driverID
      = "" := by
  constructor <;> decide

/-! ## C5 -/

theorem matchLoop_eq_spec (now : Int) (ds : List Driver) :
    ∀ (os : List Order) (i : Nat) (sm : StateManager),
      matchLoop now ds os i sm = MatchPairsSpec now sm (os.zip (ds.drop i)) := by
  intro os
  induction os with
  | nil => intro i sm; simp [matchLoop, MatchPairsSpec]
  | cons o rest ih =>
    intro i sm
    by_cases h : ds.length ≤ i
    · rw [List.drop_eq_nil_of_le h]
      simp [matchLoop, h, MatchPairsSpec]
    · have hlt : i < ds.length := Nat.lt_of_not_le h
      have hdrop : ds.drop i = ds.get ⟨i, hlt⟩ :: ds.drop (i + 1) :=
        (List.get_cons_drop ds ⟨i, hlt⟩).symm
      rw [hdrop]
      simp only [matchLoop, dif_neg h, List.zip_cons_cons, MatchPairsSpec]
      cases hres : AssignOrderToDriver sm o.id (ds.get ⟨i, hlt⟩).id now with
      | mk sm2 err => cases err <;> simp [hres, ih, List.zip]

theorem getPending_eq_filterEntries (sm : StateManager) :
    GetPendingOrders sm =
      (sm.orders.filter fun pr => pr.2.status == OrderPending).map Prod.snd := by
  simp only [GetPendingOrders, List.filter_map]
  rfl

theorem getAvailable_eq_filterEntries (sm : StateManager) :
    GetAvailableDrivers sm =
      (sm.drivers.filter fun pr => pr.2.status == DriverAvailable).map
        Prod.snd := by
  simp only [GetAvailableDrivers, List.filter_map]
  rfl

theorem pending_mem_lookup {sm : StateManager}
    (hnd : NoDupKeys sm.orders = true)
    (hkey : KeyedBy Order.id sm.orders = true) {o : Order}
    (h : o ∈ GetPendingOrders sm) :
    mapLookup sm.orders o.id = some o ∧ o.status = OrderPending := by
  obtain ⟨hmem, hp⟩ := List.mem_filter.mp h
  obtain ⟨pr, hpr, hsnd⟩ := List.mem_map.mp hmem
  subst hsnd
  have hkd : pr.2.id = pr.1 := by
    have := List.all_eq_true.mp hkey pr hpr
    simpa using this
  refine ⟨?_, by simpa using hp⟩
  rw [hkd]
  exact mem_mapLookup_of_noDup hnd (by simpa using hpr)

theorem available_mem_lookup {sm : StateManager}
    (hnd : NoDupKeys sm.drivers = true)
    (hkey : KeyedBy Driver.id sm.drivers = true) {d : Driver}
    (h : d ∈ GetAvailableDrivers sm) :
    mapLookup sm.drivers d.id = some d ∧ d.status = DriverAvailable := by
  obtain ⟨hmem, hp⟩ := List.mem_filter.mp h
  obtain ⟨pr, hpr, hsnd⟩ := List.mem_map.mp hmem
  subst hsnd
  have hkd : pr.2.id = pr.1 := by
    have := List.all_eq_true.mp hkey pr hpr
    simpa using this
  refine ⟨?_, by simpa using hp⟩
  rw [hkd]
  exact mem_mapLookup_of_noDup hnd (by simpa using hpr)

theorem pending_two_distinct {sm : StateManager} {o1 o2 : Order}
    (hnd : NoDupKeys sm.orders = true)
    (hkey : KeyedBy Order.id sm.orders = true)
    (h : GetPendingOrders sm = [o1, o2]) : o1.id ≠ o2.id := by
  rw [getPending_eq_filterEntries] at h
  have hndF : NoDupKeys
      (sm.orders.filter fun pr => pr.2.status == OrderPending) = true :=
    noDupKeys_filter hnd
  revert h hndF
  cases hF : sm.orders.filter fun pr => pr.2.status == OrderPending with
  | nil => intro h _; simp at h
  | cons p1 tl =>
    cases tl with
    | nil => intro h _; simp at h
    | cons p2 tl2 =>
      intro h hndF
      simp only [List.map_cons, List.cons.injEq] at h
      obtain ⟨h1, h2, _⟩ := h
      have hp1 : p1 ∈ sm.orders :=
        List.mem_of_mem_filter (hF ▸ List.mem_cons_self ..)
      have hp2 : p2 ∈ sm.orders :=
        List.mem_of_mem_filter
          (hF ▸ List.mem_cons_of_mem _ (List.mem_cons_self ..))
      have hk1 : p1.2.id = p1.1 := by
        have := List.all_eq_true.mp hkey p1 hp1
        simpa using this
      have hk2 : p2.2.id = p2.1 := by
        have := List.all_eq_true.mp hkey p2 hp2
        simpa using this
      simp only [NoDupKeys, Bool.and_eq_true, Bool.not_eq_true'] at hndF
      have hkeyne : p2.1 ≠ p1.1 := by
        intro hcon
        have : (mapLookup (p2 :: tl2) p1.1).isSome = true := by
          simp [mapLookup, hcon]
        rw [hndF.1] at this
        exact absurd this (by simp)
      rw [← h1, ← h2, hk1, hk2]
      exact fun hcon => hkeyne hcon.symm

/-- C5: a matching tick does nothing when either the pending list or the
available list is empty; otherwise it equals the spec-side description
that attempts assignment for exactly the paired i-th pending order and
i-th available driver, for i up to the size of the smaller list, in read
order, skipping failed pairs; and with two pending orders and one
available driver the tick assigns exactly the first-read order to the
driver and leaves the other pending. -/
theorem c5_match_orders (sm : StateManager) (now : Int) :
    (GetPendingOrders sm = [] → MatchOrders sm now = (sm, 0)) ∧
    (GetAvailableDrivers sm = [] → MatchOrders sm now = (sm, 0)) ∧
    (MatchOrders sm now =
      if GetPendingOrders sm = [] then (sm, 0)
      else if GetAvailableDrivers sm = [] then (sm, 0)
      else MatchPairsSpec now sm
        ((GetPendingOrders sm).zip (GetAvailableDrivers sm))) ∧
    (∀ o1 o2 d1, WFb sm = true →
      GetPendingOrders sm = [o1, o2] → GetAvailableDrivers sm = [d1] →
      MatchOrders sm now = (assignedStore sm o1.id d1.id now o1 d1, 1) ∧
      mapLookup (MatchOrders sm now).1.orders o1.id =
        some { o1 with status := OrderAssigned, driverID := d1.id,
                       updatedAt := now } ∧
      mapLookup (MatchOrders sm now).1.orders o2.id = some o2 ∧
      o2.status = OrderPending ∧
      mapLookup (MatchOrders sm now).1.drivers d1.id =
        some { d1 with status := DriverBusy, updatedAt := now }) := by
  have hempty1 : GetPendingOrders sm = [] → MatchOrders sm now = (sm, 0) := by
    intro h; simp [MatchOrders, h]
  have hempty2 : GetAvailableDrivers sm = [] →
      MatchOrders sm now = (sm, 0) := by
    intro h
    by_cases hp : GetPendingOrders sm = []
    · simp [MatchOrders, hp]
    · simp [MatchOrders, h, List.length_eq_zero.mpr, hp,
        List.length_eq_zero]
  have hmain : MatchOrders sm now =
      if GetPendingOrders sm = [] then (sm, 0)
      else if GetAvailableDrivers sm = [] then (sm, 0)
      else MatchPairsSpec now sm
        ((GetPendingOrders sm).zip (GetAvailableDrivers sm)) := by
    by_cases hp : GetPendingOrders sm = []
    · simp [hp, hempty1 hp]
    · by_cases hd : GetAvailableDrivers sm = []
      · simp [hp, hd, hempty2 hd]
      · rw [if_neg hp, if_neg hd]
        have : MatchOrders sm now =
            matchLoop now (GetAvailableDrivers sm) (GetPendingOrders sm)
              0 sm := by
          simp [MatchOrders, List.length_eq_zero, hp, hd]
        rw [this, matchLoop_eq_spec, List.drop_zero]
  refine ⟨hempty1, hempty2, hmain, ?_⟩
  intro o1 o2 d1 hwf h2 h3
  simp only [WFb, Bool.and_eq_true] at hwf
  obtain ⟨⟨⟨hndD, hndO⟩, hkeyD⟩, hkeyO⟩ := hwf
  have ho1 := pending_mem_lookup hndO hkeyO (h2 ▸ List.mem_cons_self ..)
  have ho2 := pending_mem_lookup hndO hkeyO
    (h2 ▸ List.mem_cons_of_mem _ (List.mem_cons_self ..))
  have hd1 := available_mem_lookup hndD hkeyD (h3 ▸ List.mem_cons_self ..)
  have hne : o1.id ≠ o2.id := pending_two_distinct hndO hkeyO h2
  have hM : MatchOrders sm now =
      (assignedStore sm o1.id d1.id now o1 d1, 1) := by
    rw [hmain, if_neg (by simp [h2]), if_neg (by simp [h3]), h2, h3]
    simp only [List.zip_cons_cons, List.zip_nil_right, MatchPairsSpec,
      assign_ok ho1.1 hd1.1 ho1.2 hd1.2]
  refine ⟨hM, ?_, ?_, ho2.2, ?_⟩
  · rw [hM]
    exact mapLookup_insert_self ..
  · rw [hM]
    show mapLookup
      (mapInsert sm.orders o1.id _) o2.id = some o2
    rw [mapLookup_insert_ne _ _ (Ne.symm hne)]
    exact ho2.1
  · rw [hM]
    exact mapLookup_insert_self ..

def c5Order2 : Order := { c1Order with id := "o2" }

def c5Store : StateManager :=
  { drivers := [("d1", c1Driver)],
    orders := [("o1", c1Order), ("o2", c5Order2)] }

/-- Witness for C5 at a concrete store with two pending orders and one
available driver. -/
theorem c5_match_orders_witness :
    MatchOrders c5Store 5 =
      (assignedStore c5Store c1Order.id c1Driver.id 5 c1Order c1Driver, 1) ∧
    mapLookup (MatchOrders c5Store 5).1.orders c1Order.id =
      some { c1Order with status := OrderAssigned, driverID := c1Driver.id,
                          updatedAt := 5 } ∧
    mapLookup (MatchOrders c5Store 5).1.orders c5Order2.id = some c5Order2 ∧
    c5Order2.status = OrderPending ∧
    mapLookup (MatchOrders c5Store 5).1.drivers c1Driver.id =
      some { c1Driver with status := DriverBusy, updatedAt := 5 } :=
  (c5_match_orders c5Store 5).2.2.2 c1Order c5Order2 c1Driver (by decide)
    (by decide) (by decide)

/-! ## C9 -/

theorem exists_zip_pair {l1 : List β} {l2 : List γ}
    (hlen : l1.length = l2.length) {a : β} (ha : a ∈ l1) :
    ∃ b, (a, b) ∈ l1.zip l2 := by
  induction l1 generalizing l2 with
  | nil => simp at ha
  | cons x xs ih =>
    cases l2 with
    | nil => simp at hlen
    | cons y ys =>
      rw [List.zip_cons_cons]
      rcases List.mem_cons.mp ha with rfl | ha2
      · exact ⟨y, List.mem_cons_self ..⟩
      · obtain ⟨b, hb⟩ := ih (by simpa using hlen) ha2
        exact ⟨b, List.mem_cons_of_mem _ hb⟩

theorem allocCells_spec (vs : List α) :
    ∀ (heap : List (Addr × α)) (next : Addr),
      (∀ a, a < next →
        mapLookup (allocCells heap next vs).2.1 a = mapLookup heap a) ∧
      (∀ a ∈ (allocCells heap next vs).1, next ≤ a) ∧
      (∀ pr ∈ (allocCells heap next vs).1.zip vs,
        mapLookup (allocCells heap next vs).2.1 pr.1 = some pr.2) ∧
      (allocCells heap next vs).1.length = vs.length ∧
      next ≤ (allocCells heap next vs).2.2 := by
  induction vs with
  | nil => intro heap next; simp [allocCells]
  | cons v rest ih =>
    intro heap next
    obtain ⟨ih1, ih2, ih3, ih4, ih5⟩ := ih (mapInsert heap next v) (next + 1)
    simp only [allocCells]
    refine ⟨?_, ?_, ?_, ?_, ?_⟩
    · intro a ha
      rw [ih1 a (Nat.lt_succ_of_lt ha),
        mapLookup_insert_ne _ _ (Nat.ne_of_lt ha)]
    · intro a ha
      rcases List.mem_cons.mp ha with rfl | ha2
      · exact Nat.le_refl a
      · exact Nat.le_of_succ_le (ih2 a ha2)
    · intro pr hpr
      rw [List.zip_cons_cons] at hpr
      rcases List.mem_cons.mp hpr with rfl | hpr2
      · rw [ih1 next (Nat.lt_succ_self next)]
        exact mapLookup_insert_self ..
      · exact ih3 pr hpr2
    · simpa using ih4
    · exact Nat.le_of_succ_le ih5

theorem derefAll_sub (heap : List (Addr × α)) (ptrs : List (String × Addr)) :
    ∀ v ∈ derefAll heap ptrs, ∃ pr, pr ∈ ptrs ∧ mapLookup heap pr.2 = some v := by
  intro v hv
  obtain ⟨pr, hpr, heq⟩ := List.mem_filterMap.mp hv
  exact ⟨pr, hpr, heq⟩

theorem alloc_derived_spec (next : Addr) {heap : List (Addr × α)}
    {ptrs : List (String × Addr)} {vs : List α}
    (hsub : ∀ v ∈ vs, ∃ pr, pr ∈ ptrs ∧ mapLookup heap pr.2 = some v) :
    (∀ a ∈ (allocCells heap next vs).1, next ≤ a) ∧
    (∀ a ∈ (allocCells heap next vs).1, ∃ v pr, pr ∈ ptrs ∧
      mapLookup heap pr.2 = some v ∧
      mapLookup (allocCells heap next vs).2.1 a = some v) := by
  obtain ⟨h1, h2, h3, h4, _⟩ := allocCells_spec vs heap next
  refine ⟨h2, ?_⟩
  intro a ha
  obtain ⟨v, hv⟩ := exists_zip_pair h4 ha
  have hcontent := h3 (a, v) hv
  have hvmem : v ∈ vs := (List.of_mem_zip hv).2
  obtain ⟨pr, hpr, heq⟩ := hsub v hvmem
  exact ⟨v, pr, hpr, heq, hcontent⟩

theorem triple_eq_inv {α β γ : Type} {a a2 : α} {b b2 : β} {c c2 : γ}
    (h : (a, b, c) = (a2, b2, c2)) : a2 = a ∧ b2 = b ∧ c2 = c := by
  injection h with e1 e2
  injection e2 with e2a e2b
  exact ⟨e1.symm, e2a.symm, e2b.symm⟩

/-- Everything a read guarantees: the pointer maps are untouched, all
returned addresses are fresh (at or above the allocation bound), and each
returned cell holds a copy of a record the store references. -/
theorem applyRead_spec (h : HeapState) (r : ReadOp) (das oas : List Addr)
    (h2 : HeapState) (hr : applyRead h r = (das, oas, h2)) :
    h2.driverPtrs = h.driverPtrs ∧ h2.orderPtrs = h.orderPtrs ∧
    (∀ a ∈ das, h.nextAddr ≤ a) ∧ (∀ a ∈ oas, h.nextAddr ≤ a) ∧
    (∀ a ∈ das, ∃ d pr, pr ∈ h.driverPtrs ∧
      mapLookup h.driverHeap pr.2 = some d ∧
      mapLookup h2.driverHeap a = some d) ∧
    (∀ a ∈ oas, ∃ o pr, pr ∈ h.orderPtrs ∧
      mapLookup h.orderHeap pr.2 = some o ∧
      mapLookup h2.orderHeap a = some o) := by
  cases r with
  | getDriver id =>
    cases hp : mapLookup h.driverPtrs id with
    | none =>
      simp only [applyRead, hp] at hr
      obtain ⟨rfl, rfl, rfl⟩ := triple_eq_inv hr
      simp
    | some p =>
      cases hd : mapLookup h.driverHeap p with
      | none =>
        simp only [applyRead, hp, hd] at hr
        obtain ⟨rfl, rfl, rfl⟩ := triple_eq_inv hr
        simp
      | some d =>
        simp only [applyRead, hp, hd] at hr
        have hsub : ∀ v ∈ [d], ∃ pr, pr ∈ h.driverPtrs ∧
            mapLookup h.driverHeap pr.2 = some v := by
          intro v hv
          rw [List.mem_singleton.mp hv]
          exact ⟨(id, p), mapLookup_mem hp, hd⟩
        obtain ⟨hb, hc⟩ := alloc_derived_spec h.nextAddr hsub
        obtain ⟨rfl, rfl, rfl⟩ := triple_eq_inv hr
        exact ⟨rfl, rfl, hb, by simp, fun a ha => hc a ha, by simp⟩
  | getAllDrivers =>
    simp only [applyRead] at hr
    obtain ⟨hb, hc⟩ := alloc_derived_spec h.nextAddr
      (derefAll_sub h.driverHeap h.driverPtrs)
    obtain ⟨rfl, rfl, rfl⟩ := triple_eq_inv hr
    exact ⟨rfl, rfl, hb, by simp, fun a ha => hc a ha, by simp⟩
  | getAvailableDrivers =>
    simp only [applyRead] at hr
    have hsub : ∀ v ∈ (derefAll h.driverHeap h.driverPtrs).filter
        (fun d => d.status == DriverAvailable), ∃ pr, pr ∈ h.driverPtrs ∧
        mapLookup h.driverHeap pr.2 = some v := by
      intro v hv
      exact derefAll_sub h.driverHeap h.driverPtrs v
        (List.mem_of_mem_filter hv)
    obtain ⟨hb, hc⟩ := alloc_derived_spec h.nextAddr hsub
    obtain ⟨rfl, rfl, rfl⟩ := triple_eq_inv hr
    exact ⟨rfl, rfl, hb, by simp, fun a ha => hc a ha, by simp⟩
  | getOrder id =>
    cases hp : mapLookup h.orderPtrs id with
    | none =>
      simp only [applyRead, hp] at hr
      obtain ⟨rfl, rfl, rfl⟩ := triple_eq_inv hr
      simp
    | some p =>
      cases ho : mapLookup h.orderHeap p with
      | none =>
        simp only [applyRead, hp, ho] at hr
        obtain ⟨rfl, rfl, rfl⟩ := triple_eq_inv hr
        simp
      | some o =>
        simp only [applyRead, hp, ho] at hr
        have hsub : ∀ v ∈ [o], ∃ pr, pr ∈ h.orderPtrs ∧
            mapLookup h.orderHeap pr.2 = some v := by
          intro v hv
          rw [List.mem_singleton.mp hv]
          exact ⟨(id, p), mapLookup_mem hp, ho⟩
        obtain ⟨hb, hc⟩ := alloc_derived_spec h.nextAddr hsub
        obtain ⟨rfl, rfl, rfl⟩ := triple_eq_inv hr
        exact ⟨rfl, rfl, by simp, hb, by simp, fun a ha => hc a ha⟩
  | getAllOrders =>
    simp only [applyRead] at hr
    obtain ⟨hb, hc⟩ := alloc_derived_spec h.nextAddr
      (derefAll_sub h.orderHeap h.orderPtrs)
    obtain ⟨rfl, rfl, rfl⟩ := triple_eq_inv hr
    exact ⟨rfl, rfl, by simp, hb, by simp, fun a ha => hc a ha⟩
  | getPendingOrders =>
    simp only [applyRead] at hr
    have hsub : ∀ v ∈ (derefAll h.orderHeap h.orderPtrs).filter
        (fun o => o.status == OrderPending), ∃ pr, pr ∈ h.orderPtrs ∧
        mapLookup h.orderHeap pr.2 = some v := by
      intro v hv
      exact derefAll_sub h.orderHeap h.orderPtrs v
        (List.mem_of_mem_filter hv)
    obtain ⟨hb, hc⟩ := alloc_derived_spec h.nextAddr hsub
    obtain ⟨rfl, rfl, rfl⟩ := triple_eq_inv hr
    exact ⟨rfl, rfl, by simp, hb, by simp, fun a ha => hc a ha⟩
  | snapshot =>
    simp only [applyRead] at hr
    obtain ⟨hb, hc⟩ := alloc_derived_spec h.nextAddr
      (derefAll_sub h.driverHeap h.driverPtrs)
    obtain ⟨_, _, _, _, hup⟩ :=
      allocCells_spec (derefAll h.driverHeap h.driverPtrs) h.driverHeap
        h.nextAddr
    obtain ⟨hb2, hc2⟩ := alloc_derived_spec
      (allocCells h.driverHeap h.nextAddr
        (derefAll h.driverHeap h.driverPtrs)).2.2
      (derefAll_sub h.orderHeap h.orderPtrs)
    obtain ⟨rfl, rfl, rfl⟩ := triple_eq_inv hr
    refine ⟨rfl, rfl, hb, ?_, fun a ha => hc a ha, fun a ha => hc2 a ha⟩
    intro a ha
    exact Nat.le_trans hup (hb2 a ha)

/-- A store mutation writes the driver heap only through store-held
pointers or through the record argument of a driver upsert; any other
cell keeps its value. -/
theorem applyHOp_frame_driverHeap (g : HeapState) (op : HOp) (a : Addr)
    (hptr : ∀ id p, mapLookup g.driverPtrs id = some p → p ≠ a)
    (harg : ∀ p now, op = HOp.upsertDriver p now → p ≠ a) :
    mapLookup (applyHOp g op).driverHeap a = mapLookup g.driverHeap a := by
  cases op with
  | upsertDriver p now =>
    cases hl : mapLookup g.driverHeap p with
    | none => simp [applyHOp, hl]
    | some d =>
      simp only [applyHOp, hl]
      exact mapLookup_insert_ne _ _ (Ne.symm (harg p now rfl))
  | setDriverStatus id st now =>
    by_cases hv : (!IsValidDriverStatus st) = true
    · simp [applyHOp, hv]
    · cases hpl : mapLookup g.driverPtrs id with
      | none => simp [applyHOp, hv, hpl]
      | some p =>
        cases hl : mapLookup g.driverHeap p with
        | none => simp [applyHOp, hv, hpl, hl]
        | some d =>
          simp only [applyHOp, hv, hpl, hl, Bool.false_eq_true, if_false]
          exact mapLookup_insert_ne _ _ (Ne.symm (hptr id p hpl))
  | createOrder p now =>
    cases hl : mapLookup g.orderHeap p with
    | none => simp [applyHOp, hl]
    | some o => simp [applyHOp, hl]
  | setOrderStatus id st now =>
    by_cases hv : (!IsValidOrderStatus st) = true
    · simp [applyHOp, hv]
    · cases hpl : mapLookup g.orderPtrs id with
      | none => simp [applyHOp, hv, hpl]
      | some p =>
        cases hl : mapLookup g.orderHeap p with
        | none => simp [applyHOp, hv, hpl, hl]
        | some o =>
          by_cases hc : (!CanTransitionOrderStatus o.status st) = true
          · simp [applyHOp, hv, hpl, hl, hc]
          · simp [applyHOp, hv, hpl, hl, hc]
  | assignOrder oid did now =>
    cases hpo : mapLookup g.orderPtrs oid with
    | none => simp [applyHOp, hpo]
    | some po =>
      cases hoo : mapLookup g.orderHeap po with
      | none => simp [applyHOp, hpo, hoo]
      | some o =>
        cases hpd : mapLookup g.driverPtrs did with
        | none => simp [applyHOp, hpo, hoo, hpd]
        | some pd =>
          cases hdd : mapLookup g.driverHeap pd with
          | none => simp [applyHOp, hpo, hoo, hpd, hdd]
          | some d =>
            by_cases h1 : (o.status != OrderPending) = true
            · simp [applyHOp, hpo, hoo, hpd, hdd, h1]
            · by_cases h2 : (d.status != DriverAvailable) = true
              · simp [applyHOp, hpo, hoo, hpd, hdd, h1, h2]
              · simp only [applyHOp, hpo, hoo, hpd, hdd, h1, h2,
                  Bool.false_eq_true, if_false]
                exact mapLookup_insert_ne _ _ (Ne.symm (hptr did pd hpd))

/-- Symmetric frame fact for the order heap. -/
theorem applyHOp_frame_orderHeap (g : HeapState) (op : HOp) (a : Addr)
    (hptr : ∀ id p, mapLookup g.orderPtrs id = some p → p ≠ a)
    (harg : ∀ p now, op = HOp.createOrder p now → p ≠ a) :
    mapLookup (applyHOp g op).orderHeap a = mapLookup g.orderHeap a := by
  cases op with
  | upsertDriver p now =>
    cases hl : mapLookup g.driverHeap p with
    | none => simp [applyHOp, hl]
    | some d => simp [applyHOp, hl]
  | setDriverStatus id st now =>
    by_cases hv : (!IsValidDriverStatus st) = true
    · simp [applyHOp, hv]
    · cases hpl : mapLookup g.driverPtrs id with
      | none => simp [applyHOp, hv, hpl]
      | some p =>
        cases hl : mapLookup g.driverHeap p with
        | none => simp [applyHOp, hv, hpl, hl]
        | some d => simp [applyHOp, hv, hpl, hl]
  | createOrder p now =>
    cases hl : mapLookup g.orderHeap p with
    | none => simp [applyHOp, hl]
    | some o =>
      simp only [applyHOp, hl]
      exact mapLookup_insert_ne _ _ (Ne.symm (harg p now rfl))
  | setOrderStatus id st now =>
    by_cases hv : (!IsValidOrderStatus st) = true
    · simp [applyHOp, hv]
    · cases hpl : mapLookup g.orderPtrs id with
      | none => simp [applyHOp, hv, hpl]
      | some p =>
        cases hl : mapLookup g.orderHeap p with
        | none => simp [applyHOp, hv, hpl, hl]
        | some o =>
          by_cases hc : (!CanTransitionOrderStatus o.status st) = true
          · simp [applyHOp, hv, hpl, hl, hc]
          · simp only [applyHOp, hv, hpl, hl, hc, Bool.false_eq_true,
              if_false]
            exact mapLookup_insert_ne _ _ (Ne.symm (hptr id p hpl))
  | assignOrder oid did now =>
    cases hpo : mapLookup g.orderPtrs oid with
    | none => simp [applyHOp, hpo]
    | some po =>
      cases hoo : mapLookup g.orderHeap po with
      | none => simp [applyHOp, hpo, hoo]
      | some o =>
        cases hpd : mapLookup g.driverPtrs did with
        | none => simp [applyHOp, hpo, hoo, hpd]
        | some pd =>
          cases hdd : mapLookup g.driverHeap pd with
          | none => simp [applyHOp, hpo, hoo, hpd, hdd]
          | some d =>
            by_cases h1 : (o.status != OrderPending) = true
            · simp [applyHOp, hpo, hoo, hpd, hdd, h1]
            · by_cases h2 : (d.status != DriverAvailable) = true
              · simp [applyHOp, hpo, hoo, hpd, hdd, h1, h2]
              · simp only [applyHOp, hpo, hoo, hpd, hdd, h1, h2,
                  Bool.false_eq_true, if_false]
                exact mapLookup_insert_ne _ _ (Ne.symm (hptr oid po hpo))

theorem view_insert_aux {heap : List (Addr × α)} {a : Addr} {v : α}
    (ptrs : List (String × Addr)) (hb : ∀ pr ∈ ptrs, pr.2 ≠ a) :
    (ptrs.map fun pr => (pr.1, mapLookup (mapInsert heap a v) pr.2)) =
      ptrs.map fun pr => (pr.1, mapLookup heap pr.2) := by
  induction ptrs with
  | nil => rfl
  | cons pr rest ih =>
    simp only [List.map_cons]
    rw [mapLookup_insert_ne _ _ (hb pr (List.mem_cons_self ..)),
      ih fun q hq => hb q (List.mem_cons_of_mem _ hq)]

/-- C9: every read returns its records in freshly allocated cells holding
copies of the store-referenced records (whole records, the embedded
coordinates included, since cells hold complete record values); the
returned cells are disjoint from every store-held pointer, so a later
store mutation leaves a previously returned record unchanged, and
overwriting a returned cell leaves every record the store sees through
its own pointers unchanged. For the two record-accepting mutations the
caller-allocated argument cell must be distinct from the returned cells,
as it is for the fresh records the handlers decode per request. -/
theorem c9_reads_return_copies (h : HeapState) (r : ReadOp)
    (das oas : List Addr) (h2 : HeapState)
    (hwf : HWFb h = true) (hr : applyRead h r = (das, oas, h2)) :
    (∀ a ∈ das, ∃ d pr, pr ∈ h.driverPtrs ∧
      mapLookup h.driverHeap pr.2 = some d ∧
      mapLookup h2.driverHeap a = some d) ∧
    (∀ a ∈ oas, ∃ o pr, pr ∈ h.orderPtrs ∧
      mapLookup h.orderHeap pr.2 = some o ∧
      mapLookup h2.orderHeap a = some o) ∧
    (∀ a ∈ das, ∀ id p, mapLookup h2.driverPtrs id = some p → p ≠ a) ∧
    (∀ a ∈ oas, ∀ id p, mapLookup h2.orderPtrs id = some p → p ≠ a) ∧
    (∀ op, HOpArgOK das oas op →
      (∀ a ∈ das, mapLookup (applyHOp h2 op).driverHeap a =
        mapLookup h2.driverHeap a) ∧
      (∀ a ∈ oas, mapLookup (applyHOp h2 op).orderHeap a =
        mapLookup h2.orderHeap a)) ∧
    (∀ a ∈ das, ∀ v, storeDriverView
      { h2 with driverHeap := mapInsert h2.driverHeap a v } =
        storeDriverView h2) ∧
    (∀ a ∈ oas, ∀ v, storeOrderView
      { h2 with orderHeap := mapInsert h2.orderHeap a v } =
        storeOrderView h2) := by
  obtain ⟨hdp, hop2, hdb, hob, hdc, hoc⟩ := applyRead_spec h r das oas h2 hr
  simp only [HWFb, Bool.and_eq_true] at hwf
  obtain ⟨hwf1, hwf2⟩ := hwf
  have hDB : ∀ pr ∈ h.driverPtrs, pr.2 < h.nextAddr := by
    intro pr hpr
    have := List.all_eq_true.mp hwf1 pr hpr
    simp only [Bool.and_eq_true, decide_eq_true_eq] at this
    exact this.1
  have hOB : ∀ pr ∈ h.orderPtrs, pr.2 < h.nextAddr := by
    intro pr hpr
    have := List.all_eq_true.mp hwf2 pr hpr
    simp only [Bool.and_eq_true, decide_eq_true_eq] at this
    exact this.1
  have hfreshD : ∀ a ∈ das, ∀ id p,
      mapLookup h2.driverPtrs id = some p → p ≠ a := by
    intro a ha id p hp
    rw [hdp] at hp
    have h1 : p < h.nextAddr := hDB (id, p) (mapLookup_mem hp)
    have h2b := hdb a ha
    exact Nat.ne_of_lt (Nat.lt_of_lt_of_le h1 h2b)
  have hfreshO : ∀ a ∈ oas, ∀ id p,
      mapLookup h2.orderPtrs id = some p → p ≠ a := by
    intro a ha id p hp
    rw [hop2] at hp
    have h1 : p < h.nextAddr := hOB (id, p) (mapLookup_mem hp)
    have h2b := hob a ha
    exact Nat.ne_of_lt (Nat.lt_of_lt_of_le h1 h2b)
  refine ⟨hdc, hoc, hfreshD, hfreshO, ?_, ?_, ?_⟩
  · intro op hok
    constructor
    · intro a ha
      apply applyHOp_frame_driverHeap
      · exact fun id p hp => hfreshD a ha id p hp
      · intro p now hopEq
        subst hopEq
        exact fun hpa => hok (hpa ▸ ha)
    · intro a ha
      apply applyHOp_frame_orderHeap
      · exact fun id p hp => hfreshO a ha id p hp
      · intro p now hopEq
        subst hopEq
        exact fun hpa => hok (hpa ▸ ha)
  · intro a ha v
    unfold storeDriverView
    show (h2.driverPtrs.map fun pr =>
      (pr.1, mapLookup (mapInsert h2.driverHeap a v) pr.2)) = _
    apply view_insert_aux
    intro pr hpr
    rw [hdp] at hpr
    have h1 := hDB pr hpr
    have h2b := hdb a ha
    exact Nat.ne_of_lt (Nat.lt_of_lt_of_le h1 h2b)
  · intro a ha v
    unfold storeOrderView
    show (h2.orderPtrs.map fun pr =>
      (pr.1, mapLookup (mapInsert h2.orderHeap a v) pr.2)) = _
    apply view_insert_aux
    intro pr hpr
    rw [hop2] at hpr
    have h1 := hOB pr hpr
    have h2b := hob a ha
    exact Nat.ne_of_lt (Nat.lt_of_lt_of_le h1 h2b)

def c9Heap : HeapState :=
  { driverHeap := [(0, c1Driver)], orderHeap := [(1, c1Order)],
    nextAddr := 2, driverPtrs := [("d1", 0)], orderPtrs := [("o1", 1)] }

def c9Heap2 : HeapState :=
  { driverHeap := [(0, c1Driver), (2, c1Driver)], orderHeap := [(1, c1Order)],
    nextAddr := 3, driverPtrs := [("d1", 0)], orderPtrs := [("o1", 1)] }

/-- Witness for C9 at a concrete heap: after a get-driver read returning
cell 2, a driver status write through the store leaves cell 2 unchanged,
and overwriting cell 2 leaves the records the store sees unchanged. -/
theorem c9_reads_return_copies_witness :
    mapLookup (applyHOp c9Heap2 (HOp.setDriverStatus "d1" "busy" 5)).driverHeap
      2 = mapLookup c9Heap2.driverHeap 2 ∧
    storeDriverView { c9Heap2 with driverHeap := (mapInsert
      c9Heap2.driverHeap 2 { c1Driver with name := "mallory" }) } =
      storeDriverView c9Heap2 :=
  ⟨((c9_reads_return_copies c9Heap (.getDriver "d1") [2] [] c9Heap2
      (by decide) (by decide)).2.2.2.2.1
      (HOp.setDriverStatus "d1" "busy" 5) trivial).1 2 (by simp),
   (c9_reads_return_copies c9Heap (.getDriver "d1") [2] [] c9Heap2
      (by decide) (by decide)).2.2.2.2.2.1 2 (by simp)
     { c1Driver with name := "mallory" }⟩

end DSM
